import Mathlib

/-!
Verification of the CV-reader extraction pipeline (app/services/cv_parser.py and
friends) against its natural-language specification.

Python text is modelled as a list of characters.  Python operations that the
source uses are given small executable models:

* str.strip()            -> pyStrip (ASCII whitespace)
* str.strip(chars)       -> pyStripChars
* str.split(sep)         -> List.splitOn (single char) or splitOnSeq (multi char)
* str.split(sep, 1)      -> splitFirst
* sep.join(xs)           -> List.intercalate
* substring containment  -> containsSeq

Regular-expression searches are modelled per pattern.  The date-range pattern
used by the work-experience and education parsers is deterministic (every
quantifier in it is followed by a character class disjoint from the quantified
class, and all alternatives start with pairwise disjoint characters), so it is
modelled by a direct longest-munch matcher; the contact-info patterns (email,
phone, linkedin, github, location) genuinely backtrack and are modelled by a
small prioritized backtracking engine further below.
-/

namespace CvReader

/-- Model of a Python str: a list of characters. -/
abbrev PyStr := List Char

/-- ASCII decimal digit, the model of the regex class backslash-d. -/
def pyDigit (c : Char) : Bool := '0' ≤ c ∧ c ≤ '9'

/-- ASCII letter.  Under re.IGNORECASE the class [a-z] matches both cases. -/
def isAsciiLetter (c : Char) : Bool := ('a' ≤ c ∧ c ≤ 'z') ∨ ('A' ≤ c ∧ c ≤ 'Z')

/-- ASCII uppercase letter, the class [A-Z]. -/
def isUpperCh (c : Char) : Bool := 'A' ≤ c ∧ c ≤ 'Z'

/-- ASCII lowercase letter, the class [a-z] without re.IGNORECASE. -/
def isLowerCh (c : Char) : Bool := 'a' ≤ c ∧ c ≤ 'z'

/-- The ASCII whitespace characters recognised by Python str.strip() and by
the regex class backslash-s. -/
def pySpaceChar (c : Char) : Bool :=
  c = ' ' ∨ c = '\t' ∨ c = '\n' ∨ c = '\r' ∨ c = '\x0b' ∨ c = '\x0c'

/-- Word character for the regex anchor backslash-b: [A-Za-z0-9_]. -/
def isWordCh (c : Char) : Bool := isAsciiLetter c ∨ pyDigit c ∨ c = '_'

/-- Model of Python str.strip(): drop ASCII whitespace from both ends. -/
def pyStrip (cs : PyStr) : PyStr :=
  ((cs.dropWhile pySpaceChar).reverse.dropWhile pySpaceChar).reverse

/-- Model of Python str.strip(chars): drop the given characters from both ends. -/
def pyStripChars (chars : PyStr) (cs : PyStr) : PyStr :=
  ((cs.dropWhile (chars.contains ·)).reverse.dropWhile (chars.contains ·)).reverse

/-- Model of Python text.split('\n'). -/
def splitLines (cs : PyStr) : List PyStr := cs.splitOn '\n'

/-- Model of Python line.split(sep, 1) when sep occurs: the text before the
first occurrence and the text after it.  Returns none when sep is absent. -/
def splitFirst (sep : Char) : PyStr → Option (PyStr × PyStr)
  | [] => none
  | c :: t =>
    if c = sep then some ([], t)
    else (splitFirst sep t).map fun pr => (c :: pr.1, pr.2)

/-- Does cs start with pat? -/
def beginsWith : PyStr → PyStr → Bool
  | [], _ => true
  | _ :: _, [] => false
  | p :: ps, c :: t => p = c ∧ beginsWith ps t

/-- Model of the Python substring test pat in cs. -/
def containsSeq (pat : PyStr) : PyStr → Bool
  | [] => pat.isEmpty
  | c :: t => beginsWith pat (c :: t) || containsSeq pat t

/-- One step of Python str.split on a multi-character separator; fuel bounds
the recursion (the input length suffices because every step consumes at least
one character when the separator is nonempty). -/
def splitOnSeqGo (sep : PyStr) : Nat → PyStr → List PyStr
  | 0, cs => [cs]
  | _ + 1, [] => [[]]
  | f + 1, c :: t =>
    if sep ≠ [] ∧ beginsWith sep (c :: t) then
      [] :: splitOnSeqGo sep f ((c :: t).drop sep.length)
    else
      match splitOnSeqGo sep f t with
      | h :: r => (c :: h) :: r
      | [] => [[c]]

/-- Model of Python str.split(sep) for a multi-character separator. -/
def splitOnSeq (sep : PyStr) (cs : PyStr) : List PyStr :=
  splitOnSeqGo sep (cs.length + 1) cs

/-- Lowercase a Python string, the model of str.lower() for ASCII text. -/
def pyLower (cs : PyStr) : PyStr := cs.map Char.toLower

/-! ### Association lists with Python-dict semantics

Python dicts preserve insertion order; assigning to an existing key replaces
the value in place, assigning to a fresh key appends it at the end. -/

/-- Is the key present? -/
def keyMem {κ ν : Type} [DecidableEq κ] (k : κ) (m : List (κ × ν)) : Bool :=
  m.any fun p => decide (p.1 = k)

/-- Lookup, first binding wins (keys are unique by construction). -/
def dictGet {κ ν : Type} [DecidableEq κ] (m : List (κ × ν)) (k : κ) : Option ν :=
  (m.find? fun p => decide (p.1 = k)).map (·.2)

/-- Python dict assignment m[k] = v. -/
def dictInsert {κ ν : Type} [DecidableEq κ] (m : List (κ × ν)) (k : κ) (v : ν) :
    List (κ × ν) :=
  if keyMem k m then m.map (fun p => if p.1 = k then (k, v) else p) else m ++ [(k, v)]

/-- Python del m[k]. -/
def dictDelete {κ ν : Type} [DecidableEq κ] (m : List (κ × ν)) (k : κ) :
    List (κ × ν) :=
  m.filter fun p => decide (p.1 ≠ k)

/-! ### Data model (app/models/cv.py) -/

/-- Dataclass WorkExperience. -/
structure WorkExperience where
  start_date : PyStr
  end_date : PyStr
  position : PyStr
  company : PyStr
  location : PyStr
  responsibilities : List PyStr
  deriving DecidableEq, Repr

/-- Dataclass Education. -/
structure Education where
  start_date : PyStr
  end_date : PyStr
  degree : PyStr
  institution : PyStr
  location : PyStr
  deriving DecidableEq, Repr

/-- Dataclass Project. -/
structure Project where
  name : PyStr
  description : PyStr
  deriving DecidableEq, Repr

/-- Dataclass Certification. -/
structure Certification where
  date : PyStr
  name : PyStr
  issuer : PyStr
  deriving DecidableEq, Repr

/-- Dataclass CVData, the root record (the spec calls it ParsedResume).
Collection fields default to empty; optional scalars default to None. -/
structure CVData where
  name : Option PyStr := none
  title : Option PyStr := none
  location : Option PyStr := none
  email : Option PyStr := none
  phone : Option PyStr := none
  linkedin : Option PyStr := none
  github : Option PyStr := none
  website : Option PyStr := none
  summary : Option PyStr := none
  technical_skills : List (PyStr × List PyStr) := []
  work_experience : List WorkExperience := []
  education : List Education := []
  projects : List Project := []
  certifications : List Certification := []
  volunteering : List PyStr := []
  deriving DecidableEq, Repr

/-! ### Serialized (dictionary) form (app/utils.py dataclass_to_dict)

dataclass_to_dict walks a dataclass and produces a plain dict with exactly the
dataclass fields as keys; nested dataclasses become dicts, lists become lists,
dicts and scalars pass through.  Each dict produced from a given dataclass thus
has a fixed key set, modelled here by a mirror structure per dataclass. -/

/-- Dict form of WorkExperience. -/
structure WorkExperienceD where
  start_date : PyStr
  end_date : PyStr
  position : PyStr
  company : PyStr
  location : PyStr
  responsibilities : List PyStr
  deriving DecidableEq, Repr

/-- Dict form of Education. -/
structure EducationD where
  start_date : PyStr
  end_date : PyStr
  degree : PyStr
  institution : PyStr
  location : PyStr
  deriving DecidableEq, Repr

/-- Dict form of Project. -/
structure ProjectD where
  name : PyStr
  description : PyStr
  deriving DecidableEq, Repr

/-- Dict form of Certification. -/
structure CertificationD where
  date : PyStr
  name : PyStr
  issuer : PyStr
  deriving DecidableEq, Repr

/-- Dict form of CVData, the JSON-compatible serialized shape stored in the
cache. -/
structure CVDataD where
  name : Option PyStr
  title : Option PyStr
  location : Option PyStr
  email : Option PyStr
  phone : Option PyStr
  linkedin : Option PyStr
  github : Option PyStr
  website : Option PyStr
  summary : Option PyStr
  technical_skills : List (PyStr × List PyStr)
  work_experience : List WorkExperienceD
  education : List EducationD
  projects : List ProjectD
  certifications : List CertificationD
  volunteering : List PyStr
  deriving DecidableEq, Repr

/-- dataclass_to_dict on a WorkExperience value. -/
def workExperienceToDict (w : WorkExperience) : WorkExperienceD :=
  ⟨w.start_date, w.end_date, w.position, w.company, w.location, w.responsibilities⟩

/-- dataclass_to_dict on an Education value. -/
def educationToDict (e : Education) : EducationD :=
  ⟨e.start_date, e.end_date, e.degree, e.institution, e.location⟩

/-- dataclass_to_dict on a Project value. -/
def projectToDict (p : Project) : ProjectD :=
  ⟨p.name, p.description⟩

/-- dataclass_to_dict on a Certification value. -/
def certificationToDict (c : Certification) : CertificationD :=
  ⟨c.date, c.name, c.issuer⟩

/-- dataclass_to_dict on the root CVData value (app/utils.py): every field is
emitted; lists of nested dataclasses are converted elementwise, the skills dict
and scalar fields pass through. -/
def dataclass_to_dict (cv : CVData) : CVDataD :=
  ⟨cv.name, cv.title, cv.location, cv.email, cv.phone, cv.linkedin, cv.github,
   cv.website, cv.summary, cv.technical_skills,
   cv.work_experience.map workExperienceToDict,
   cv.education.map educationToDict,
   cv.projects.map projectToDict,
   cv.certifications.map certificationToDict,
   cv.volunteering⟩

/-- Inverse conversion used on a cache hit, one nested record. -/
def workExperienceOfDict (w : WorkExperienceD) : WorkExperience :=
  ⟨w.start_date, w.end_date, w.position, w.company, w.location, w.responsibilities⟩

/-- Inverse conversion used on a cache hit, one nested record. -/
def educationOfDict (e : EducationD) : Education :=
  ⟨e.start_date, e.end_date, e.degree, e.institution, e.location⟩

/-- Inverse conversion used on a cache hit, one nested record. -/
def projectOfDict (p : ProjectD) : Project :=
  ⟨p.name, p.description⟩

/-- Inverse conversion used on a cache hit, one nested record. -/
def certificationOfDict (c : CertificationD) : Certification :=
  ⟨c.date, c.name, c.issuer⟩

/-- ImprovedCVReader._reconstruct_cv_data: rebuild a CVData from its dict form.
The source converts each nested list only when the key is present and the list
is truthy (nonempty); an empty list is passed through unchanged. -/
def _reconstruct_cv_data (d : CVDataD) : CVData :=
  { name := d.name, title := d.title, location := d.location, email := d.email,
    phone := d.phone, linkedin := d.linkedin, github := d.github,
    website := d.website, summary := d.summary,
    technical_skills := d.technical_skills,
    work_experience :=
      if d.work_experience.isEmpty then [] else d.work_experience.map workExperienceOfDict,
    education :=
      if d.education.isEmpty then [] else d.education.map educationOfDict,
    projects :=
      if d.projects.isEmpty then [] else d.projects.map projectOfDict,
    certifications :=
      if d.certifications.isEmpty then [] else d.certifications.map certificationOfDict,
    volunteering := d.volunteering }

/-! ### The date-range pattern

The work-experience and education parsers search (with re.IGNORECASE) for

  ((Jan|...|Dec)[a-z]* \s+ d{4} | d{4}) \s* [endash emdash hyphen] \s*
  ((Jan|...|Dec)[a-z]* \s+ d{4} | d{4} | Present | Current?)

where the education variant omits the Current alternative.  In this pattern
every greedy quantifier is followed by a class disjoint from the quantified
class ([a-z]* by At-least-one-space, At-least-one-space by a digit, the two
space-stars by a dash and by the end group whose alternatives all start with a
letter or digit), and the alternatives of each group start with pairwise
distinct characters (month names with J F M A S O N D, a year with a digit,
Present with P, Current with C), so Python's backtracking search is equivalent
to the longest-munch matcher below and the match at a given start position is
unique. -/

/-- Case-insensitive literal match: consumes pat.length characters when they
equal pat up to ASCII case, returning the consumed text (original case kept,
as re captures do) and the rest. -/
def matchLitCI : PyStr → PyStr → Option (PyStr × PyStr)
  | [], cs => some ([], cs)
  | _ :: _, [] => none
  | p :: ps, c :: t =>
    if c.toLower = p.toLower then (matchLitCI ps t).map fun pr => (c :: pr.1, pr.2)
    else none

/-- The twelve month literals, in the order the regex lists them. -/
def monthLits : List PyStr :=
  ["Jan", "Feb", "Mar", "Apr", "May", "Jun", "Jul", "Aug", "Sep", "Oct",
   "Nov", "Dec"].map (·.data)

/-- First literal of the list that matches at the current position. -/
def firstLitCI : List PyStr → PyStr → Option (PyStr × PyStr)
  | [], _ => none
  | l :: ls, cs => matchLitCI l cs <|> firstLitCI ls cs

/-- The regex piece d{4}: exactly four decimal digits. -/
def take4Digits (cs : PyStr) : Option (PyStr × PyStr) :=
  let d := cs.take 4
  if d.length = 4 ∧ d.all pyDigit then some (d, cs.drop 4) else none

/-- The month-year alternative: month literal, [a-z]* (any ASCII letters under
re.IGNORECASE), at least one whitespace, four digits. -/
def matchMonthYear (cs : PyStr) : Option (PyStr × PyStr) :=
  (firstLitCI monthLits cs).bind fun pr =>
    let letters := pr.2.takeWhile isAsciiLetter
    let r2 := pr.2.dropWhile isAsciiLetter
    let sps := r2.takeWhile pySpaceChar
    let r3 := r2.dropWhile pySpaceChar
    if sps = [] then none
    else (take4Digits r3).map fun pr2 => (pr.1 ++ letters ++ sps ++ pr2.1, pr2.2)

/-- The start group of the date-range pattern: month-year, else a bare year. -/
def matchStartGroup (cs : PyStr) : Option (PyStr × PyStr) :=
  matchMonthYear cs <|> take4Digits cs

/-- The end group: month-year, bare year, Present, or (work experience only,
when cur is true) Current; all case-insensitive. -/
def matchEndGroup (cur : Bool) (cs : PyStr) : Option (PyStr × PyStr) :=
  matchMonthYear cs <|> take4Digits cs <|> matchLitCI "Present".data cs <|>
    (if cur then matchLitCI "Current".data cs else none)

/-- A date-range match: the two capture groups, the separating whitespace and
dash, and the rest of the input after the match. -/
structure DRMatch where
  g1 : PyStr
  sp1 : PyStr
  dash : Char
  sp2 : PyStr
  g2 : PyStr
  rest : PyStr
  deriving DecidableEq, Repr

/-- The full matched text of a date-range match. -/
def DRMatch.full (m : DRMatch) : PyStr :=
  m.g1 ++ m.sp1 ++ m.dash :: (m.sp2 ++ m.g2)

/-- Match the date-range pattern at the current position.  cur selects the
work-experience variant (with the Current alternative). -/
def dateRangeAt (cur : Bool) (cs : PyStr) : Option DRMatch :=
  (matchStartGroup cs).bind fun pr =>
    let sp1 := pr.2.takeWhile pySpaceChar
    match pr.2.dropWhile pySpaceChar with
    | [] => none
    | d :: r3 =>
      if d = '-' ∨ d = '–' ∨ d = '—' then
        let sp2 := r3.takeWhile pySpaceChar
        let r4 := r3.dropWhile pySpaceChar
        (matchEndGroup cur r4).map fun pr2 => ⟨pr.1, sp1, d, sp2, pr2.1, pr2.2⟩
      else none

/-- Model of re.search with the date-range pattern: try each start position
left to right (at the empty rest only the final, failing, attempt remains). -/
def findDR (cur : Bool) : PyStr → Option DRMatch
  | [] => dateRangeAt cur []
  | c :: t =>
    match dateRangeAt cur (c :: t) with
    | some m => some m
    | none => findDR cur t

/-- Model of re.sub with the date-range pattern and empty replacement: delete
every non-overlapping match, scanning left to right.  Fuel bounds the
recursion; input length plus one suffices because a match consumes at least
the four characters of its start group. -/
def subDRGo (cur : Bool) : Nat → PyStr → PyStr
  | 0, cs => cs
  | _ + 1, [] => []
  | f + 1, c :: t =>
    match dateRangeAt cur (c :: t) with
    | some m => subDRGo cur f m.rest
    | none => c :: subDRGo cur f t

/-- re.sub(dateRange, '', cs). -/
def subDR (cur : Bool) (cs : PyStr) : PyStr := subDRGo cur (cs.length + 1) cs

/-- Shape of a month-year start or end component as the spec describes it:
a month name (up to case), more letters, whitespace, then a four-digit
year. -/
def isMonthYearShape (g : PyStr) : Prop :=
  ∃ mon letters sps ds, g = mon ++ letters ++ sps ++ ds ∧
    (∃ lit ∈ monthLits, pyLower mon = pyLower lit) ∧
    letters.all isAsciiLetter = true ∧ sps ≠ [] ∧ sps.all pySpaceChar = true ∧
    ds.length = 4 ∧ ds.all pyDigit = true

/-- Shape of a bare-year component. -/
def isYear4 (g : PyStr) : Prop := g.length = 4 ∧ g.all pyDigit = true

/-- The Present end component, up to case. -/
def isPresentTok (g : PyStr) : Prop := pyLower g = "present".data

/-- The Current end component, up to case. -/
def isCurrentTok (g : PyStr) : Prop := pyLower g = "current".data

/-! ### Section segmentation (split_into_sections) -/

/-- The section identifiers with their heading alternatives, in the order the
source dict lists them.  Each heading regex is anchored on both sides with an
optional trailing-whitespace tail, and is matched against the stripped line
under re.IGNORECASE, so a line is a heading exactly when its stripped form
equals one of the alternatives up to case. -/
def headerPatterns : List (String × List PyStr) :=
  [("summary", ["Summary", "Profile", "About", "Objective"].map (·.data)),
   ("technical_skills", ["Technical Skills", "Skills", "Competencies"].map (·.data)),
   ("experience",
    ["Experience", "Work Experience", "Employment",
     "Professional Experience"].map (·.data)),
   ("education", ["Education", "Academic Background", "Qualifications"].map (·.data)),
   ("projects", ["Projects", "Personal Projects", "Key Projects"].map (·.data)),
   ("certifications", ["Certification", "Certifications", "Certificates"].map (·.data)),
   ("volunteering", ["Volunteering", "Volunteer", "Community"].map (·.data))]

/-- Case-insensitive equality of two Python strings. -/
def ciEq (a b : PyStr) : Bool := decide (pyLower a = pyLower b)

/-- The section identifier whose heading pattern the stripped line matches,
if any (patterns tried in order). -/
def headerName (ls : PyStr) : Option String :=
  headerPatterns.findSome? fun p => if p.2.any (ciEq ls) then some p.1 else none

/-- Model of Python newline.join. -/
def joinNl (content : List PyStr) : PyStr := List.intercalate ['\n'] content

/-- Flush the accumulated body lines of the current section into the mapping:
only when a section is open and at least one line was accumulated. -/
def flushInto (cur : Option String) (content : List PyStr)
    (secs : List (String × PyStr)) : List (String × PyStr) :=
  match cur with
  | some c => if content.isEmpty then secs else dictInsert secs c (joinNl content)
  | none => secs

/-- The line walk of split_into_sections: a heading flushes the previous
section and opens a new one; a non-blank line under an open section is
accumulated (in its original, unstripped form); everything else is dropped. -/
def segGo : List PyStr → Option String → List PyStr → List (String × PyStr) →
    List (String × PyStr)
  | [], cur, content, secs => flushInto cur content secs
  | l :: rest, cur, content, secs =>
    match headerName (pyStrip l) with
    | some name => segGo rest (some name) [] (flushInto cur content secs)
    | none =>
      if cur.isSome ∧ pyStrip l ≠ [] then segGo rest cur (content ++ [l]) secs
      else segGo rest cur content secs

/-- ImprovedCVReader.split_into_sections. -/
def split_into_sections (text : PyStr) : List (String × PyStr) :=
  segGo (splitLines text) none [] []

/-- All body lines of a section mapping, concatenated in mapping order. -/
def sectionBodyLines (secs : List (String × PyStr)) : List PyStr :=
  secs.flatMap fun p => splitLines p.2

/-- The sequence of heading identifiers matched in a text, in document order. -/
def headersOf (text : PyStr) : List String :=
  (splitLines text).filterMap fun l => headerName (pyStrip l)

/-! ### Technical skills parser (parse_technical_skills) -/

/-- The key of the implicit General bucket. -/
def generalKey : PyStr := "General".data

/-- The seed mapping: the source creates the dict and immediately inserts an
empty General bucket. -/
def skillsSeed : List (PyStr × List PyStr) := [(generalKey, [])]

/-- Comma-split, strip each part, keep the nonempty parts. -/
def commaItems (txt : PyStr) : List PyStr :=
  ((txt.splitOn ',').map pyStrip).filter (· ≠ [])

/-- Append items to the General bucket in place (list.extend on the stored
list object). -/
def extendGeneral (m : List (PyStr × List PyStr)) (items : List PyStr) :
    List (PyStr × List PyStr) :=
  m.map fun p => if p.1 = generalKey then (p.1, p.2 ++ items) else p

/-- The per-line update of parse_technical_skills: blank lines are skipped; a
line with a colon stores the comma items after the colon under the stripped
text before it, when there is at least one item; a line without a colon
appends its comma items to the General bucket, when there is at least one. -/
def skillsStep (m : List (PyStr × List PyStr)) (rawLine : PyStr) :
    List (PyStr × List PyStr) :=
  let line := pyStrip rawLine
  if line = [] then m
  else
    match splitFirst ':' line with
    | some (b, a) =>
      let items := commaItems (pyStrip a)
      if items = [] then m else dictInsert m (pyStrip b) items
    | none =>
      let items := commaItems line
      if items = [] then m else extendGeneral m items

/-- ImprovedCVReader.parse_technical_skills: fold the per-line update over the
section body and finally delete the General bucket when it stayed empty. -/
def parse_technical_skills (text : PyStr) : List (PyStr × List PyStr) :=
  let m := (splitLines text).foldl skillsStep skillsSeed
  match dictGet m generalKey with
  | some [] => dictDelete m generalKey
  | _ => m

/-! ### Projects parser (parse_projects) -/

/-- The line walk of parse_projects: a colon line closes the open project (its
description is the space-join of the collected lines, stripped) and opens a
new one named by the text before the colon; the text after the colon seeds the
description when nonempty; other non-blank lines extend the open description. -/
def projGo : List PyStr → Option (PyStr × List PyStr) → List Project
  | [], cur =>
    match cur with
    | some (n, ds) => [⟨n, pyStrip (List.intercalate [' '] ds)⟩]
    | none => []
  | l :: rest, cur =>
    let ls := pyStrip l
    if ls = [] then projGo rest cur
    else
      match splitFirst ':' ls with
      | some (b, a) =>
        let closed : List Project :=
          match cur with
          | some (n, ds) => [⟨n, pyStrip (List.intercalate [' '] ds)⟩]
          | none => []
        let seed := if pyStrip a = [] then [] else [pyStrip a]
        closed ++ projGo rest (some (pyStrip b, seed))
      | none =>
        match cur with
        | some (n, ds) => projGo rest (some (n, ds ++ [ls]))
        | none => projGo rest none

/-- ImprovedCVReader.parse_projects. -/
def parse_projects (text : PyStr) : List Project :=
  projGo (splitLines text) none

/-! ### Certifications and volunteering parsers

Both search per line for the short-month token [A-Z][a-z]{2} At-least-one-space
d{4} (case sensitive).  The quantifiers are again forced ([a-z]{2} is fixed
width, the whitespace run is followed by a digit), so a direct matcher is
exact. -/

/-- Match the certification token at the current position. -/
def certTokAt : PyStr → Option (PyStr × PyStr)
  | c :: l1 :: l2 :: t =>
    if isUpperCh c ∧ isLowerCh l1 ∧ isLowerCh l2 then
      let sps := t.takeWhile pySpaceChar
      let t2 := t.dropWhile pySpaceChar
      if sps = [] then none
      else (take4Digits t2).map fun pr => (c :: l1 :: l2 :: (sps ++ pr.1), pr.2)
    else none
  | _ => none

/-- re.search for the certification token: the text before the first match,
the match, and the rest. -/
def certSearch : PyStr → Option (PyStr × PyStr × PyStr)
  | [] => none
  | c :: t =>
    match certTokAt (c :: t) with
    | some pr => some ([], pr.1, pr.2)
    | none => (certSearch t).map fun q => (c :: q.1, q.2.1, q.2.2)

/-- Does the line contain a certification token? -/
def hasCertTok (cs : PyStr) : Bool := (certSearch cs).isSome

/-- One iteration of the parse_certifications loop at cursor i: returns the
produced record, if any, and the next cursor.  On a token match the text
before the token (stripped) is the name and the token is the date; when the
following line exists, is non-blank and has no token itself it is consumed as
the issuer and the cursor advances past it. -/
def certStep (lines : List PyStr) (i : Nat) : Option Certification × Nat :=
  let line := pyStrip (lines.getD i [])
  if line = [] then (none, i + 1)
  else
    match certSearch line with
    | none => (none, i + 1)
    | some (pre, tok, _) =>
      let name := pyStrip pre
      if i + 1 < lines.length then
        let nl := pyStrip (lines.getD (i + 1) [])
        if nl ≠ [] ∧ ¬ hasCertTok nl then (some ⟨tok, name, nl⟩, i + 2)
        else (some ⟨tok, name, []⟩, i + 1)
      else (some ⟨tok, name, []⟩, i + 1)

/-- The cursor loop of parse_certifications; the fuel only bounds the
recursion and lines.length + 1 always suffices because every step advances
the cursor. -/
def certGo (lines : List PyStr) : Nat → Nat → List Certification
  | 0, _ => []
  | f + 1, i =>
    if i < lines.length then
      let s := certStep lines i
      s.1.toList ++ certGo lines f s.2
    else []

/-- ImprovedCVReader.parse_certifications. -/
def parse_certifications (text : PyStr) : List Certification :=
  let lines := splitLines text
  certGo lines (lines.length + 1) 0

/-- The line walk of parse_volunteering: a line bearing the short-month token
starts a new activity, token-free lines extend the open activity with a
space. -/
def volGo : List PyStr → Option PyStr → List PyStr
  | [], cur => cur.toList
  | l :: rest, cur =>
    let ls := pyStrip l
    if ls = [] then volGo rest cur
    else if hasCertTok ls then cur.toList ++ volGo rest (some ls)
    else
      match cur with
      | some c => volGo rest (some (c ++ ' ' :: ls))
      | none => volGo rest none

/-- ImprovedCVReader.parse_volunteering. -/
def parse_volunteering (text : PyStr) : List PyStr :=
  volGo (splitLines text) none

/-! ### Education parser (parse_education) -/

/-- re.search for a bare four-digit run. -/
def has4Digits : PyStr → Bool
  | a :: b :: c :: d :: r =>
    (pyDigit a ∧ pyDigit b ∧ pyDigit c ∧ pyDigit d) || has4Digits (b :: c :: d :: r)
  | _ => false

/-- re.findall for the four-digit pattern: leftmost, non-overlapping. -/
def findAll4 : PyStr → List PyStr
  | a :: b :: c :: d :: r =>
    if pyDigit a ∧ pyDigit b ∧ pyDigit c ∧ pyDigit d then
      [a, b, c, d] :: findAll4 r
    else findAll4 (b :: c :: d :: r)
  | _ => []

/-- The keyword lists of the degree / institution disambiguation. -/
def instKeywords : List PyStr :=
  ["university", "universitas", "institute", "institut", "college", "school",
   "academy", "politeknik", "politech", "campus", "smk", "sma", "high school",
   "universiti"].map (·.data)

/-- The keyword lists of the degree / institution disambiguation. -/
def degreeKeywords : List PyStr :=
  ["bachelor", "master", "diploma", "degree", "phd", "doctor", "associate",
   "sarjana", "magister", "teknik", "computer", "science", "informatics",
   "information", "mca", "b.sc", "m.sc", "b.a", "m.a", "d4", "d3", "siswa",
   "major", "minor", "engineering"].map (·.data)

/-- Does the lowercased text contain any keyword of the list? -/
def hasAnyKeyword (kws : List PyStr) (lower : PyStr) : Bool :=
  kws.any fun k => containsSeq k lower

/-- Build one Education record from a stripped degree-candidate line and the
stripped following line, exactly as the body of the parse_education loop:
dates from the education date-range pattern over the joined lines, else from
the bare four-digit years found there; institution and location from the
comma-split of the following line with the date range deleted; then the
keyword-driven swap of degree and institution. -/
def eduRecord (line nextLine : PyStr) : Education :=
  let joined := line ++ ' ' :: nextLine
  let dates :=
    match findDR false joined with
    | some m => (m.g1, m.g2)
    | none =>
      let ys := findAll4 joined
      match ys with
      | y1 :: y2 :: _ => (y1, y2)
      | [y1] => (y1, "Present".data)
      | [] => ([], [])
  let instLoc := pyStrip (subDR false nextLine)
  let parts := (instLoc.splitOn ',').map pyStrip
  let institution := parts.headD []
  let location :=
    if parts.length > 1 then List.intercalate ", ".data (parts.drop 1) else []
  let degLower := pyLower line
  let instLower := pyLower institution
  let hasInstInDeg := hasAnyKeyword instKeywords degLower
  let hasDegInDeg := hasAnyKeyword degreeKeywords degLower
  let hasDegInInst := hasAnyKeyword degreeKeywords instLower
  let hasInstInInst := hasAnyKeyword instKeywords instLower
  let swap :=
    (hasInstInDeg ∧ hasDegInInst) ∨ (hasInstInDeg ∧ ¬ hasDegInDeg) ∨
      (hasDegInInst ∧ ¬ hasInstInInst)
  if swap then ⟨dates.1, dates.2, institution, line, location⟩
  else ⟨dates.1, dates.2, line, institution, location⟩

/-- One iteration of the parse_education outer loop at cursor i: a blank line
or a line bearing a four-digit run yields nothing and the cursor advances by
one; otherwise the line is a degree candidate, the inner increment consumes
the following line (when it exists) to complete a record, and the trailing
increment of the loop advances the cursor once more, so the cursor lands two
past the degree line. -/
def eduStep (lines : List PyStr) (i : Nat) : Option Education × Nat :=
  let line := pyStrip (lines.getD i [])
  if line = [] then (none, i + 1)
  else if has4Digits line then (none, i + 1)
  else
    if i + 1 < lines.length then
      (some (eduRecord line (pyStrip (lines.getD (i + 1) []))), i + 2)
    else (none, i + 2)

/-- The cursor loop of parse_education; fuel as in certGo. -/
def eduGo (lines : List PyStr) : Nat → Nat → List Education
  | 0, _ => []
  | f + 1, i =>
    if i < lines.length then
      let s := eduStep lines i
      s.1.toList ++ eduGo lines f s.2
    else []

/-- ImprovedCVReader.parse_education. -/
def parse_education (text : PyStr) : List Education :=
  let lines := splitLines text
  eduGo lines (lines.length + 1) 0

/-! ### Work experience parser (parse_work_experience) -/

/-- The role keyword list shared by the header heuristics. -/
def posKeywords : List PyStr :=
  ["developer", "engineer", "manager", "lead", "head", "intern", "specialist",
   "consultant", "director", "officer", "analyst"].map (·.data)

/-- Does the line contain a role keyword (case-insensitive)? -/
def hasPosKeyword (l : PyStr) : Bool := hasAnyKeyword posKeywords (pyLower l)

/-- Is there a date-range match on the stripped line at index k? -/
def tryDateAt (lines : List PyStr) (k : Nat) : Option (Nat × PyStr × PyStr) :=
  if k < lines.length then
    (findDR true (pyStrip (lines.getD k []))).map fun m => (k, m.g1, m.g2)
  else none

/-- The lookahead of the outer loop: the first of the next three lines whose
stripped form bears a date-range match, with the two captured dates. -/
def weFindDate (lines : List PyStr) (i : Nat) : Option (Nat × PyStr × PyStr) :=
  tryDateAt lines i <|> tryDateAt lines (i + 1) <|> tryDateAt lines (i + 2)

/-- The lookahead of the responsibilities loop: does any of the next three
raw (unstripped) lines bear a date-range match? -/
def isNextJob (lines : List PyStr) (j : Nat) : Bool :=
  (decide (j < lines.length) && (findDR true (lines.getD j [])).isSome) ||
  (decide (j + 1 < lines.length) && (findDR true (lines.getD (j + 1) [])).isSome) ||
  (decide (j + 2 < lines.length) && (findDR true (lines.getD (j + 2) [])).isSome)

/-- Header analysis when the date line is the cursor line itself: the date
range is deleted from the date line; a pipe or a spaced at splits it into
position and company, else the whole remainder is the company. -/
def weHeader0 (rem : PyStr) : PyStr × PyStr :=
  if rem.contains '|' then
    let parts := rem.splitOn '|'
    (pyStrip (parts.getD 0 []), pyStrip (parts.getD 1 []))
  else if containsSeq " at ".data rem then
    let parts := splitOnSeq " at ".data rem
    (pyStrip (parts.getD 0 []), pyStrip (parts.getD 1 []))
  else ([], rem)

/-- Header analysis for a one-line header block. -/
def weHeader1 (l1 : PyStr) : PyStr × PyStr :=
  if l1.contains '|' then
    let parts := l1.splitOn '|'
    (pyStrip (parts.getD 0 []), pyStrip (parts.getD 1 []))
  else if containsSeq " at ".data l1 then
    let parts := splitOnSeq " at ".data l1
    (pyStrip (parts.getD 0 []), pyStrip (parts.getD 1 []))
  else if hasPosKeyword l1 then (l1, [])
  else ([], l1)

/-- Header analysis for a two-or-more-line header block (first two lines
used): the keyword list decides which is the position; ties default to
company-then-position. -/
def weHeader2 (l1 l2 : PyStr) : PyStr × PyStr :=
  if hasPosKeyword l1 ∧ ¬ hasPosKeyword l2 then (l1, l2)
  else if hasPosKeyword l2 ∧ ¬ hasPosKeyword l1 then (l2, l1)
  else (l2, l1)

/-- The responsibilities loop from index j: skip blanks, stop at the next job
boundary, strip a leading bullet, collect nonempty remainders; returns the
collected lines and the final cursor. -/
def respGo (lines : List PyStr) : Nat → Nat → List PyStr × Nat
  | 0, j => ([], j)
  | f + 1, j =>
    if j < lines.length then
      let lj := pyStrip (lines.getD j [])
      if lj = [] then respGo lines f (j + 1)
      else if isNextJob lines j then ([], j)
      else
        let clean :=
          match lj with
          | c :: t => if c = '•' ∨ c = '-' then pyStrip t else lj
          | [] => []
        let next := respGo lines f (j + 1)
        ((if clean = [] then [] else [clean]) ++ next.1, next.2)
    else ([], j)

/-- One iteration of the parse_work_experience outer loop at cursor i. -/
def weStep (lines : List PyStr) (i : Nat) : Option WorkExperience × Nat :=
  let line := pyStrip (lines.getD i [])
  if line = [] then (none, i + 1)
  else
    match weFindDate lines i with
    | none => (none, i + 1)
    | some (dli, sd, ed) =>
      let headerLines := (lines.drop i).take (dli - i)
      let rem := pyStrip (subDR true (lines.getD dli []))
      let pc :=
        match headerLines with
        | [] => weHeader0 rem
        | [l1] => weHeader1 (pyStrip l1)
        | l1 :: l2 :: _ => weHeader2 (pyStrip l1) (pyStrip l2)
      let location := pyStripChars " ,·•|".data rem
      let resp := respGo lines (lines.length + 1) (dli + 1)
      (some ⟨sd, ed, pc.1, pc.2, location, resp.1⟩, resp.2)

/-- The cursor loop of parse_work_experience; fuel as in certGo (every
iteration advances the cursor: a recordless one by one, a record-producing one
to at least one past the date line). -/
def weGo (lines : List PyStr) : Nat → Nat → List WorkExperience
  | 0, _ => []
  | f + 1, i =>
    if i < lines.length then
      let s := weStep lines i
      s.1.toList ++ weGo lines f s.2
    else []

/-- ImprovedCVReader.parse_work_experience. -/
def parse_work_experience (text : PyStr) : List WorkExperience :=
  let lines := splitLines text
  weGo lines (lines.length + 1) 0

/-! ### A prioritized backtracking regex engine

The contact-info patterns (email, phone, linkedin, github, location) need real
backtracking, so they are modelled with a small engine whose result list
enumerates the candidate match ends in exactly Python's backtracking priority
order: alternation tries the left branch first, the greedy star tries more
iterations first (an iteration must consume at least one character, as in
Python), and the first entry of the list is the match Python reports. -/

/-- Regex abstract form: empty, a character class, concatenation, prioritized
alternation, greedy star, and the word-boundary anchor. -/
inductive Rx where
  | eps : Rx
  | cl : (Char → Bool) → Rx
  | cat : Rx → Rx → Rx
  | alt : Rx → Rx → Rx
  | star : Rx → Rx
  | wordB : Rx

/-- Is the optional character a word character (start and end of input count
as non-word)? -/
def isWordOpt : Option Char → Bool
  | some c => isWordCh c
  | none => false

/-- The greedy-star loop: given the continuation states of one iteration of
the body (already computed by the caller), try progressing iterations first
and the empty repetition last.  Fuel bounds the unrolling; since every kept
iteration consumes at least one character, input length plus one suffices. -/
def starLoop (f : Option Char → PyStr → List (Option Char × PyStr)) :
    Nat → Option Char → PyStr → List (Option Char × PyStr)
  | 0, prev, cs => [(prev, cs)]
  | fuel + 1, prev, cs =>
    (((f prev cs).filter fun pr => pr.2.length < cs.length).flatMap fun pr =>
      starLoop f fuel pr.1 pr.2) ++ [(prev, cs)]

/-- Run a regex from a position: prev is the character just before the
position (for the word-boundary anchor); the result lists every candidate
(last consumed character, rest of input) in backtracking priority order. -/
def rxRun : Rx → Option Char → PyStr → List (Option Char × PyStr)
  | .eps, prev, cs => [(prev, cs)]
  | .cl _, _, [] => []
  | .cl p, _, c :: t => if p c then [(some c, t)] else []
  | .cat a b, prev, cs => (rxRun a prev cs).flatMap fun pr => rxRun b pr.1 pr.2
  | .alt a b, prev, cs => rxRun a prev cs ++ rxRun b prev cs
  | .star a, prev, cs => starLoop (rxRun a) (cs.length + 1) prev cs
  | .wordB, prev, cs =>
    if isWordOpt prev = isWordOpt cs.head? then [] else [(prev, cs)]

/-- re.search: try each start position left to right; on success return the
text before the match, the matched text, and the rest. -/
def rxSearch (rx : Rx) : Option Char → PyStr → Option (PyStr × PyStr × PyStr)
  | prev, cs =>
    match rxRun rx prev cs with
    | pr :: _ => some ([], cs.take (cs.length - pr.2.length), pr.2)
    | [] =>
      match cs with
      | [] => none
      | c :: t => (rxSearch rx (some c) t).map fun q => (c :: q.1, q.2.1, q.2.2)

/-- re.findall (for patterns that cannot match the empty string): repeated
search, continuing after each match.  Fuel bounds the recursion; input length
plus one suffices because every match consumes at least one character. -/
def rxFindAllGo (rx : Rx) : Nat → Option Char → PyStr → List PyStr
  | 0, _, _ => []
  | f + 1, prev, cs =>
    match rxSearch rx prev cs with
    | none => []
    | some (_, m, rest) =>
      match m.getLast? with
      | some lastc => m :: rxFindAllGo rx f (some lastc) rest
      | none => []

/-- re.findall over a whole text. -/
def rxFindAll (rx : Rx) (cs : PyStr) : List PyStr :=
  rxFindAllGo rx (cs.length + 1) none cs

/-- A single literal character. -/
def rxCh (c : Char) : Rx := .cl fun x => x = c

/-- A single literal character, case-insensitive. -/
def rxChCI (c : Char) : Rx := .cl fun x => x.toLower = c.toLower

/-- A literal string. -/
def rxLit (s : PyStr) : Rx := s.foldr (fun c r => .cat (rxCh c) r) .eps

/-- A literal string, case-insensitive. -/
def rxLitCI (s : PyStr) : Rx := s.foldr (fun c r => .cat (rxChCI c) r) .eps

/-- Greedy option. -/
def rxOpt (a : Rx) : Rx := .alt a .eps

/-- One or more. -/
def rxPlus (a : Rx) : Rx := .cat a (.star a)

/-- Two or more. -/
def rxRep2Plus (a : Rx) : Rx := .cat a (.cat a (.star a))

/-- One to three, greedy (three tried first). -/
def rxRep1To3 (a : Rx) : Rx := .cat a (rxOpt (.cat a (rxOpt a)))

/-- Two to four, greedy. -/
def rxRep2To4 (a : Rx) : Rx := .cat a (.cat a (rxOpt (.cat a (rxOpt a))))

/-- Three to four, greedy. -/
def rxRep3To4 (a : Rx) : Rx := .cat a (.cat a (.cat a (rxOpt a)))

/-- Prioritized alternation over a list (first alternative preferred). -/
def rxAltList : List Rx → Rx
  | [] => .cl fun _ => false
  | r :: rs => rs.foldl .alt r

/-- ASCII alphanumeric. -/
def isAlnum (c : Char) : Bool := isAsciiLetter c ∨ pyDigit c

/-- The email pattern of ImprovedCVReader (note that its final class
[A-Z|a-z] also contains the pipe character, faithfully kept here). -/
def emailRx : Rx :=
  .cat .wordB <| .cat (rxPlus (.cl fun c =>
      isAlnum c ∨ c = '.' ∨ c = '_' ∨ c = '%' ∨ c = '+' ∨ c = '-')) <|
  .cat (rxCh '@') <| .cat (rxPlus (.cl fun c => isAlnum c ∨ c = '.' ∨ c = '-')) <|
  .cat (rxCh '.') <| .cat (rxRep2Plus (.cl fun c => isUpperCh c ∨ c = '|' ∨ isLowerCh c))
    .wordB

/-- The separator class [-.s] of the phone pattern. -/
def phoneSep : Rx := .cl fun c => c = '-' ∨ c = '.' ∨ pySpaceChar c

/-- The phone pattern of ImprovedCVReader. -/
def phoneRx : Rx :=
  let d : Rx := .cl pyDigit
  .cat (rxOpt (.cat (rxOpt (rxCh '+')) (.cat (rxRep1To3 d) (rxOpt phoneSep)))) <|
  .cat (rxOpt (.cat (rxOpt (rxCh '(')) (.cat (rxRep2To4 d)
    (.cat (rxOpt (rxCh ')')) (rxOpt phoneSep))))) <|
  .cat (rxRep3To4 d) <| .cat (rxOpt phoneSep) (rxRep3To4 d)

/-- The class [A-Za-z0-9_-] of the profile-path segment. -/
def userCh : Rx := .cl fun c => isAlnum c ∨ c = '_' ∨ c = '-'

/-- The linkedin pattern (searched with re.IGNORECASE). -/
def linkedinRx : Rx :=
  .cat (rxOpt (.cat (rxLitCI "http".data) (.cat (rxOpt (rxChCI 's'))
    (rxLit "://".data)))) <|
  .cat (rxOpt (rxLitCI "www.".data)) <|
  .cat (rxLitCI "linkedin.com/in/".data) <| .cat (rxPlus userCh) (rxOpt (rxCh '/'))

/-- The github pattern (searched with re.IGNORECASE). -/
def githubRx : Rx :=
  .cat (rxOpt (.cat (rxLitCI "http".data) (.cat (rxOpt (rxChCI 's'))
    (rxLit "://".data)))) <|
  .cat (rxOpt (rxLitCI "www.".data)) <|
  .cat (rxLitCI "github.com/".data) <| .cat (rxPlus userCh) (rxOpt (rxCh '/'))

/-- The location allow-list pattern, word-bounded, case-insensitive. -/
def locationRx : Rx :=
  .cat .wordB <| .cat (rxAltList
    (["Indonesia", "Malaysia", "Singapore", "India", "USA", "UK"].map
      fun s => rxLitCI s.data)) .wordB

/-! ### Contact info extraction (extract_contact_info) -/

/-- The contact dictionary assembled by extract_contact_info. -/
structure ContactInfo where
  name : Option PyStr
  title : Option PyStr
  location : Option PyStr
  email : Option PyStr
  phone : Option PyStr
  linkedin : Option PyStr
  github : Option PyStr
  deriving DecidableEq, Repr

/-- The anchored name pattern: an uppercase letter followed by one or more
letters or whitespace characters, spanning the whole stripped line. -/
def nameMatches (ls : PyStr) : Bool :=
  match ls with
  | c :: t => isUpperCh c ∧ ¬ t.isEmpty ∧ t.all fun x => isAsciiLetter x ∨ pySpaceChar x
  | [] => false

/-- The name-candidate test of the first loop: stripped line nonempty, short,
free of at-sign, of the substring http and of plus, and matching the anchored
name pattern. -/
def nameCandidate (l : PyStr) : Bool :=
  let ls := pyStrip l
  ¬ ls.isEmpty ∧ ls.length < 50 ∧
    ¬ (ls.contains '@' ∨ containsSeq "http".data ls ∨ ls.contains '+') ∧
    nameMatches ls

/-- The title test: the stripped line is nonempty and contains developer,
engineer or manager in lowercase. -/
def titleCandidate (l : PyStr) : Bool :=
  let ls := pyLower (pyStrip l)
  ¬ (pyStrip l).isEmpty ∧
    (containsSeq "developer".data ls ∨ containsSeq "engineer".data ls ∨
      containsSeq "manager".data ls)

/-- ImprovedCVReader.extract_contact_info.  Name, title and location scan the
first fifteen lines (title only lines two to five); email, phone, linkedin
and github search the whole text; a phone candidate needs at least eight
digits. -/
def extract_contact_info (text : PyStr) : ContactInfo :=
  let lines := (splitLines text).take 15
  { name := (lines.find? nameCandidate).map pyStrip,
    title := (((lines.drop 1).take 4).find? titleCandidate).map pyStrip,
    location :=
      (lines.find? fun l => (rxSearch locationRx none l).isSome).map pyStrip,
    email := (rxFindAll emailRx text).head?,
    phone :=
      (rxFindAll phoneRx text).find? fun p => decide (8 ≤ (p.filter pyDigit).length),
    linkedin := (rxFindAll linkedinRx text).head?,
    github := (rxFindAll githubRx text).head? }

/-! ### The orchestrator (parse_cv_logic) and the cache (parse_cv) -/

/-- ImprovedCVReader.parse_cv_logic, as a function of the extracted text (the
PDF extraction itself lives in an external library and is modelled by the text
argument).  Empty text short-circuits to the fully default CVData; otherwise
contact info, section segmentation and the per-section parsers assemble the
record. -/
def parse_cv_logic (text : PyStr) : CVData :=
  if text = [] then {}
  else
    let contact := extract_contact_info text
    let sections := split_into_sections text
    { name := contact.name, title := contact.title, location := contact.location,
      email := contact.email, phone := contact.phone,
      linkedin := contact.linkedin, github := contact.github, website := none,
      summary := some (pyStrip ((dictGet sections "summary").getD [])),
      technical_skills :=
        match dictGet sections "technical_skills" with
        | some b => parse_technical_skills b
        | none => [],
      work_experience :=
        match dictGet sections "experience" with
        | some b => parse_work_experience b
        | none => [],
      education :=
        match dictGet sections "education" with
        | some b => parse_education b
        | none => [],
      projects :=
        match dictGet sections "projects" with
        | some b => parse_projects b
        | none => [],
      certifications :=
        match dictGet sections "certifications" with
        | some b => parse_certifications b
        | none => [],
      volunteering :=
        match dictGet sections "volunteering" with
        | some b => parse_volunteering b
        | none => [] }

/-- Outcome of one cache-backend call: a value, or a raised exception. -/
inductive CacheOutcome (α : Type) where
  | ok : α → CacheOutcome α
  | err : CacheOutcome α
  deriving DecidableEq, Repr

/-- The cache backend as consumed by parse_cv: get may return a stored
serialized record, nothing, or raise; setex stores with a ttl or raises.  The
stored JSON string is modelled by its decoded dictionary form (a get whose
payload fails to decode is a raising get). -/
structure CacheBackend where
  get : String → CacheOutcome (Option CVDataD)
  setex : String → Nat → CVDataD → CacheOutcome Unit

/-- What a parse_cv call produced: the returned record, whether the parsing
pipeline ran, and the setex calls issued. -/
structure ParseCvOut where
  result : CVData
  ranPipeline : Bool
  setexCalls : List (String × Nat × CVDataD)
  deriving Repr

/-- ImprovedCVReader.parse_cv: the content hash of the document is sha256
(an external library call, modelled by the fileHash argument) and the full
pipeline result is parse_cv_logic on the extracted text (modelled by the
pipeline argument).  With a backend: a successful get of a stored value
returns its reconstruction without running the pipeline; a miss, a raising
get, or no backend runs the pipeline; with a backend the result is then
serialized and stored under "cv:" ++ hash with a ttl of 86400 seconds, and a
raising setex is swallowed, both branches returning the pipeline result. -/
def parse_cv (redis : Option CacheBackend) (fileHash : String)
    (pipeline : CVData) : ParseCvOut :=
  let key := "cv:" ++ fileHash
  match redis with
  | some r =>
    match r.get key with
    | .ok (some d) => ⟨_reconstruct_cv_data d, false, []⟩
    | .ok none =>
      let d := dataclass_to_dict pipeline
      match r.setex key 86400 d with
      | .ok _ => ⟨pipeline, true, [(key, 86400, d)]⟩
      | .err => ⟨pipeline, true, [(key, 86400, d)]⟩
    | .err =>
      let d := dataclass_to_dict pipeline
      match r.setex key 86400 d with
      | .ok _ => ⟨pipeline, true, [(key, 86400, d)]⟩
      | .err => ⟨pipeline, true, [(key, 86400, d)]⟩
  | none => ⟨pipeline, true, []⟩

/-! ### Concrete sample data used by witnesses and counterexamples -/

/-- A sample parsed record with nonempty collections. -/
def cvSample : CVData :=
  { name := some "John Doe".data,
    summary := some "Builds things".data,
    technical_skills := [("General".data, ["Python".data, "SQL".data])],
    work_experience :=
      [⟨"2019".data, "2021".data, "Developer".data, "Acme".data, "Jakarta".data,
        ["built things".data]⟩],
    education := [⟨"2015".data, "2019".data, "BSc".data, "State University".data, []⟩],
    projects := [⟨"Tool".data, "A tool".data⟩],
    certifications := [⟨"Jan 2022".data, "AWS".data, "Amazon".data⟩],
    volunteering := ["Jan 2020 taught kids".data] }

/-- A backend whose get always hits with the serialized sample. -/
def cacheHitBackend : CacheBackend :=
  ⟨fun _ => .ok (some (dataclass_to_dict cvSample)), fun _ _ _ => .ok ()⟩

/-- A backend whose get and setex always raise. -/
def cacheErrBackend : CacheBackend :=
  ⟨fun _ => .err, fun _ _ _ => .err⟩

/-- A backend whose get always misses and whose setex succeeds. -/
def cacheMissBackend : CacheBackend :=
  ⟨fun _ => .ok none, fun _ _ _ => .ok ()⟩

/-- Education section demo: a degree line followed by an institution line. -/
def eduDemoLines : List PyStr :=
  ["Bachelor of Science".data, "Harvard College, Cambridge".data]

/-- Segmenter demo with a repeated Summary heading. -/
def segDemoText : PyStr := "Summary\nA\nSkills\nB\nSummary\nC".data

/-- Segmenter demo without repeated headings. -/
def segWitnessText : PyStr := "Summary\nHello world\nSkills\nPython, SQL".data

/-- Work-experience demo whose date line is the block's first line. -/
def weDemoLines : List PyStr :=
  ["Acme Corporation, Jakarta 2019 - 2021".data, "- Built things".data]

/-- The date-range match of the string Jan 2020 - 2021. -/
def drWitnessMatch : DRMatch :=
  ⟨"Jan 2020".data, [' '], '-', [' '], "2021".data, []⟩

/-! ## Theorems -/

/-- The reconstruction of a serialized list: converting only when nonempty and
mapping back is the identity, for any section-retraction pair. -/
theorem reconstructList {α β : Type} (f : α → β) (g : β → α) (hg : ∀ x, g (f x) = x) :
    ∀ l : List α, (if (l.map f).isEmpty then [] else (l.map f).map g) = l := by
  intro l
  cases l with
  | nil => rfl
  | cons a t => simp [List.map_map, Function.comp_def, hg]

/-- Claim C1: a document whose extracted text is empty parses, as a normal
return value, to the fully default ParsedResume: every optional scalar field
absent and every collection field empty. -/
theorem claim_C1_empty_text_default (text : PyStr) (h : text = []) :
    parse_cv_logic text =
      ⟨none, none, none, none, none, none, none, none, none, [], [], [], [], [], []⟩ := by
  subst h; rfl

/-- Witness for claim C1 at the empty extracted text. -/
theorem claim_C1_witness :
    parse_cv_logic [] =
      ⟨none, none, none, none, none, none, none, none, none, [], [], [], [], [], []⟩ :=
  claim_C1_empty_text_default [] rfl

/-- Claim C5: serializing a ParsedResume to its dictionary form and
reconstructing from it gives back the original value in every field. -/
theorem claim_C5_roundtrip (cv : CVData) :
    _reconstruct_cv_data (dataclass_to_dict cv) = cv := by
  cases cv
  simp only [dataclass_to_dict, _reconstruct_cv_data]
  rw [reconstructList workExperienceToDict workExperienceOfDict (fun x => by cases x; rfl),
    reconstructList educationToDict educationOfDict (fun x => by cases x; rfl),
    reconstructList projectToDict projectOfDict (fun x => by cases x; rfl),
    reconstructList certificationToDict certificationOfDict (fun x => by cases x; rfl)]

/-- Claim C8: the certifications parser on the two lines AWS Certified Jan
2022 and Amazon Web Services yields exactly one record with that name, that
date, and the second line consumed as the issuer. -/
theorem claim_C8_certification_example :
    parse_certifications "AWS Certified Jan 2022\nAmazon Web Services".data =
      [⟨"Jan 2022".data, "AWS Certified".data, "Amazon Web Services".data⟩] := by
  decide

/-- Claim C9: a skills line that contains a colon but no nonempty comma item
after it leaves the mapping unchanged. -/
theorem claim_C9_colon_without_items (m : List (PyStr × List PyStr))
    (raw b a : PyStr) (h1 : splitFirst ':' (pyStrip raw) = some (b, a))
    (h2 : commaItems (pyStrip a) = []) : skillsStep m raw = m := by
  have hne : pyStrip raw ≠ [] := by
    intro h
    rw [h] at h1
    simp [splitFirst] at h1
  simp [skillsStep, hne, h1, h2]

/-- Witness for claim C9 on the line Languages: , , against a mapping that
already stores that category. -/
theorem claim_C9_witness :
    skillsStep [("Languages".data, ["x".data])] "Languages: , ,".data =
      [("Languages".data, ["x".data])] :=
  claim_C9_colon_without_items _ "Languages: , ,".data "Languages".data
    " , ,".data (by decide) (by decide)

/-- Counterexample to claim C3 as stated: an iteration of the education
parser that completes a record from a degree line and the following
institution line advances the cursor from 0 to 2, not to 1, and on the
two-line demo section the institution line is not re-examined, so exactly one
record is produced. -/
theorem claim_C3_counterexample :
    (eduStep eduDemoLines 0).1.isSome = true ∧ (eduStep eduDemoLines 0).2 = 2 ∧
      ¬ (eduStep eduDemoLines 0).2 = 0 + 1 ∧
      parse_education "Bachelor of Science\nHarvard College, Cambridge".data =
        [⟨[], [], "Bachelor of Science".data, "Harvard College".data,
          "Cambridge".data⟩] := by
  decide

/-- Claim C3 as amended: when the line at the cursor is non-blank and free of
a four-digit run (a degree candidate), the outer iteration advances the
cursor by exactly two lines, consuming the following institution line, which
is therefore not re-examined; a record is produced exactly when that
following line exists. -/
theorem claim_C3_amended (lines : List PyStr) (i : Nat)
    (hne : pyStrip (lines.getD i []) ≠ [])
    (h4 : has4Digits (pyStrip (lines.getD i [])) = false) :
    (eduStep lines i).2 = i + 2 ∧
      ((eduStep lines i).1.isSome ↔ i + 1 < lines.length) := by
  simp only [List.getD_eq_getElem?_getD] at hne h4
  by_cases h : i + 1 < lines.length <;> simp [eduStep, hne, h4, h]

/-- Witness for the amended claim C3 on the demo section. -/
theorem claim_C3_witness :
    (eduStep eduDemoLines 0).2 = 0 + 2 ∧
      ((eduStep eduDemoLines 0).1.isSome ↔ 0 + 1 < eduDemoLines.length) :=
  claim_C3_amended eduDemoLines 0 (by decide) (by decide)

/-- Claim C10: when the date line is found at the cursor itself (empty header
block) and its date-stripped remainder contains neither a pipe nor a spaced
at, the produced record has empty position, the remainder as company, and the
remainder trimmed of the separator characters as location. -/
theorem claim_C10_empty_header (lines : List PyStr) (i : Nat) (sd ed : PyStr)
    (hne : pyStrip (lines.getD i []) ≠ [])
    (hfd : weFindDate lines i = some (i, sd, ed))
    (hpipe : ('|' : Char) ∉ pyStrip (subDR true (lines.getD i [])))
    (hat : containsSeq " at ".data (pyStrip (subDR true (lines.getD i []))) = false) :
    (weStep lines i).1.map WorkExperience.position = some [] ∧
      (weStep lines i).1.map WorkExperience.company =
        some (pyStrip (subDR true (lines.getD i []))) ∧
      (weStep lines i).1.map WorkExperience.location =
        some (pyStripChars " ,·•|".data (pyStrip (subDR true (lines.getD i [])))) := by
  simp only [List.getD_eq_getElem?_getD] at hne hpipe hat
  simp [weStep, hne, hfd, weHeader0, hpipe, hat]

/-- Witness for claim C10 on the demo block whose date line is its first
line. -/
theorem claim_C10_witness :
    (weStep weDemoLines 0).1.map WorkExperience.position = some [] ∧
      (weStep weDemoLines 0).1.map WorkExperience.company =
        some (pyStrip (subDR true (weDemoLines.getD 0 []))) ∧
      (weStep weDemoLines 0).1.map WorkExperience.location =
        some (pyStripChars " ,·•|".data (pyStrip (subDR true (weDemoLines.getD 0 [])))) :=
  claim_C10_empty_header weDemoLines 0 "2019".data "2021".data (by decide)
    (by decide) (by decide) (by decide)

/-- Claim C2: through the cached entry point, a hit returns the
reconstruction of the stored serialized form without running the pipeline; a
miss runs the pipeline, stores the serialized result under cv: plus the
content hash with a 24-hour (86400 second) expiry and returns it; and
whenever the get does not hit (miss, raising get, raising setex, any
backend), the returned record equals the one of the uncached run. -/
theorem claim_C2_cache_semantics (r : CacheBackend) (h : String) (pr : CVData) :
    (∀ d, r.get ("cv:" ++ h) = .ok (some d) →
      parse_cv (some r) h pr = ⟨_reconstruct_cv_data d, false, []⟩) ∧
    (r.get ("cv:" ++ h) = .ok none →
      parse_cv (some r) h pr =
        ⟨pr, true, [("cv:" ++ h, 86400, dataclass_to_dict pr)]⟩) ∧
    ((∀ d, r.get ("cv:" ++ h) ≠ .ok (some d)) →
      (parse_cv (some r) h pr).result = (parse_cv none h pr).result) ∧
    (parse_cv none h pr).result = pr := by
  refine ⟨fun d hd => by simp [parse_cv, hd], fun hn => ?_, fun hno => ?_, rfl⟩
  · simp only [parse_cv, hn]
    cases r.setex ("cv:" ++ h) 86400 (dataclass_to_dict pr) <;> rfl
  · simp only [parse_cv]
    cases hg : r.get ("cv:" ++ h) with
    | ok o =>
      cases o with
      | some d => exact absurd hg (hno d)
      | none => cases r.setex ("cv:" ++ h) 86400 (dataclass_to_dict pr) <;> rfl
    | err => cases r.setex ("cv:" ++ h) 86400 (dataclass_to_dict pr) <;> rfl

/-- Witness for claim C2: a hitting backend returns the reconstruction of the
stored value without the pipeline, a missing backend stores and returns the
fresh result, and an always-raising backend returns the uncached result. -/
theorem claim_C2_witness :
    parse_cv (some cacheHitBackend) "h" {} =
      ⟨_reconstruct_cv_data (dataclass_to_dict cvSample), false, []⟩ ∧
    parse_cv (some cacheMissBackend) "h" cvSample =
      ⟨cvSample, true, [("cv:" ++ "h", 86400, dataclass_to_dict cvSample)]⟩ ∧
    (parse_cv (some cacheErrBackend) "h" cvSample).result =
      (parse_cv none "h" cvSample).result :=
  ⟨(claim_C2_cache_semantics cacheHitBackend "h" {}).1 (dataclass_to_dict cvSample) rfl,
   (claim_C2_cache_semantics cacheMissBackend "h" cvSample).2.1 rfl,
   (claim_C2_cache_semantics cacheErrBackend "h" cvSample).2.2.1
     (fun d hd => by simp [cacheErrBackend] at hd)⟩

/-- keyMem only looks at the keys. -/
theorem keyMem_eq {κ ν : Type} [DecidableEq κ] (k : κ) (m : List (κ × ν)) :
    keyMem k m = (m.map Prod.fst).any fun x => decide (x = k) := by
  induction m with
  | nil => rfl
  | cons p t ih => simp [keyMem, List.any_cons] at ih ⊢; rw [ih]

/-- Overwriting a key in place does not change the key sequence. -/
theorem map_fst_overwrite {κ ν : Type} [DecidableEq κ] (m : List (κ × ν)) (k : κ) (v : ν) :
    ((m.map fun p => if p.1 = k then (k, v) else p).map Prod.fst) = m.map Prod.fst := by
  induction m with
  | nil => rfl
  | cons p t ih => by_cases h : p.1 = k <;> simp [h, ih]

/-- A present key stays present under a dict assignment. -/
theorem keyMem_dictInsert {κ ν : Type} [DecidableEq κ] (k k2 : κ) (v : ν)
    (m : List (κ × ν)) (h : keyMem k m = true) :
    keyMem k (dictInsert m k2 v) = true := by
  unfold dictInsert
  split
  · rw [keyMem_eq, map_fst_overwrite, ← keyMem_eq]; exact h
  · rw [keyMem_eq] at h ⊢
    simp only [List.map_append, List.any_append, h, Bool.true_or]

/-- Extending the General bucket does not change the key sequence. -/
theorem keyMem_extendGeneral (k : PyStr) (m : List (PyStr × List PyStr))
    (items : List PyStr) : keyMem k (extendGeneral m items) = keyMem k m := by
  induction m with
  | nil => rfl
  | cons p t ih => by_cases h : p.1 = generalKey <;> simp [extendGeneral, keyMem, h] at ih ⊢ <;> rw [ih]

/-- Lookup at a cons cell. -/
theorem dictGet_cons {κ ν : Type} [DecidableEq κ] (p : κ × ν) (t : List (κ × ν))
    (k : κ) : dictGet (p :: t) k = if p.1 = k then some p.2 else dictGet t k := by
  by_cases h : p.1 = k
  · unfold dictGet
    rw [List.find?_cons_of_pos _ (by simp [h]), if_pos h]
    rfl
  · unfold dictGet
    rw [List.find?_cons_of_neg _ (by simp [h]), if_neg h]

/-- extendGeneral at a cons cell. -/
theorem extendGeneral_cons (p : PyStr × List PyStr) (t : List (PyStr × List PyStr))
    (items : List PyStr) :
    extendGeneral (p :: t) items =
      (if p.1 = generalKey then (p.1, p.2 ++ items) else p) :: extendGeneral t items := rfl

/-- Lookup of the General bucket after an in-place extend. -/
theorem dictGet_extendGeneral_general (m : List (PyStr × List PyStr))
    (items : List PyStr) (h : keyMem generalKey m = true) :
    dictGet (extendGeneral m items) generalKey =
      (dictGet m generalKey).map (· ++ items) := by
  induction m with
  | nil => simp [keyMem] at h
  | cons p t ih =>
    rw [extendGeneral_cons]
    by_cases hp : p.1 = generalKey
    · rw [if_pos hp, dictGet_cons, dictGet_cons]
      simp [hp]
    · rw [if_neg hp, dictGet_cons, dictGet_cons, if_neg hp, if_neg hp]
      apply ih
      simpa [keyMem, hp] using h

/-- Lookup of any other key after an in-place extend. -/
theorem dictGet_extendGeneral_other (m : List (PyStr × List PyStr))
    (items : List PyStr) (k : PyStr) (hk : k ≠ generalKey) :
    dictGet (extendGeneral m items) k = dictGet m k := by
  induction m with
  | nil => rfl
  | cons p t ih =>
    rw [extendGeneral_cons, dictGet_cons, dictGet_cons]
    by_cases hp : p.1 = generalKey
    · have hnk : ¬ p.1 = k := fun hh => hk (hh ▸ hp)
      rw [if_pos hp]
      show (if p.1 = k then some (p.2 ++ items) else _) = _
      rw [if_neg hnk, if_neg hnk]
      exact ih
    · rw [if_neg hp]
      by_cases hpk : p.1 = k
      · rw [if_pos hpk, if_pos hpk]
      · rw [if_neg hpk, if_neg hpk]; exact ih

/-- The control structure of one line of the skills fold, with the let
bindings of the source inlined. -/
theorem skillsStep_eq (m : List (PyStr × List PyStr)) (raw : PyStr) :
    skillsStep m raw =
      if pyStrip raw = [] then m
      else
        match splitFirst ':' (pyStrip raw) with
        | some (b, a) =>
          if commaItems (pyStrip a) = [] then m
          else dictInsert m (pyStrip b) (commaItems (pyStrip a))
        | none =>
          if commaItems (pyStrip raw) = [] then m
          else extendGeneral m (commaItems (pyStrip raw)) := rfl

/-- Every line of the fold keeps the General key present. -/
theorem keyMem_skillsStep (m : List (PyStr × List PyStr)) (raw : PyStr)
    (h : keyMem generalKey m = true) :
    keyMem generalKey (skillsStep m raw) = true := by
  rw [skillsStep_eq]
  by_cases h0 : pyStrip raw = []
  · rw [if_pos h0]; exact h
  · rw [if_neg h0]
    cases hsf : splitFirst ':' (pyStrip raw) with
    | some pr =>
      obtain ⟨b, a⟩ := pr
      show keyMem generalKey
        (if commaItems (pyStrip a) = [] then m
         else dictInsert m (pyStrip b) (commaItems (pyStrip a))) = true
      by_cases hit : commaItems (pyStrip a) = []
      · rw [if_pos hit]; exact h
      · rw [if_neg hit]; exact keyMem_dictInsert _ _ _ _ h
    | none =>
      show keyMem generalKey
        (if commaItems (pyStrip raw) = [] then m
         else extendGeneral m (commaItems (pyStrip raw))) = true
      by_cases hit : commaItems (pyStrip raw) = []
      · rw [if_pos hit]; exact h
      · rw [if_neg hit, keyMem_extendGeneral]; exact h

/-- The General key stays present through the whole fold. -/
theorem keyMem_foldl (lines : List PyStr) :
    ∀ m, keyMem generalKey m = true →
      keyMem generalKey (lines.foldl skillsStep m) = true := by
  induction lines with
  | nil => exact fun m h => h
  | cons l t ih => exact fun m h => ih _ (keyMem_skillsStep m l h)

/-- Deletion removes the key. -/
theorem keyMem_dictDelete {κ ν : Type} [DecidableEq κ] (k : κ) (m : List (κ × ν)) :
    keyMem k (dictDelete m k) = false := by
  induction m with
  | nil => rfl
  | cons p t ih => by_cases h : p.1 = k <;> simp [dictDelete, keyMem, h] at ih ⊢

/-- Presence and lookup agree. -/
theorem keyMem_iff_dictGet {κ ν : Type} [DecidableEq κ] (k : κ) (m : List (κ × ν)) :
    keyMem k m = true ↔ (dictGet m k).isSome := by
  induction m with
  | nil => simp [keyMem, dictGet]
  | cons p t ih => by_cases h : p.1 = k <;> simp [keyMem, dictGet, List.find?, h] at ih ⊢

/-- Claim C7: in the skills parser, a non-blank colon line with at least one
comma item stores those items under the stripped text before the colon,
overwriting any prior entry (a dict assignment); a non-blank line without a
colon appends its comma items to the General bucket, leaving every other
category untouched; and the General key is absent from the final result
exactly when the bucket ends up empty. -/
theorem claim_C7_skills_spec (text : PyStr) :
    (∀ (m : List (PyStr × List PyStr)) (raw b a : PyStr),
        splitFirst ':' (pyStrip raw) = some (b, a) →
        commaItems (pyStrip a) ≠ [] →
        skillsStep m raw = dictInsert m (pyStrip b) (commaItems (pyStrip a))) ∧
    (∀ (m : List (PyStr × List PyStr)) (raw : PyStr),
        pyStrip raw ≠ [] → splitFirst ':' (pyStrip raw) = none →
        commaItems (pyStrip raw) ≠ [] → keyMem generalKey m = true →
        dictGet (skillsStep m raw) generalKey =
          (dictGet m generalKey).map (· ++ commaItems (pyStrip raw)) ∧
        ∀ k, k ≠ generalKey → dictGet (skillsStep m raw) k = dictGet m k) ∧
    (keyMem generalKey (parse_technical_skills text) = true ↔
      dictGet ((splitLines text).foldl skillsStep skillsSeed) generalKey ≠ some []) := by
  refine ⟨fun m raw b a h1 h2 => ?_, fun m raw hne h1 h2 hmem => ?_, ?_⟩
  · have hne : pyStrip raw ≠ [] := by
      intro h
      rw [h] at h1
      simp [splitFirst] at h1
    rw [skillsStep_eq, if_neg hne, h1]
    show (if commaItems (pyStrip a) = [] then m
          else dictInsert m (pyStrip b) (commaItems (pyStrip a))) = _
    rw [if_neg h2]
  · have hstep : skillsStep m raw = extendGeneral m (commaItems (pyStrip raw)) := by
      rw [skillsStep_eq, if_neg hne, h1]
      show (if commaItems (pyStrip raw) = [] then m
            else extendGeneral m (commaItems (pyStrip raw))) = _
      rw [if_neg h2]
    rw [hstep]
    exact ⟨dictGet_extendGeneral_general _ _ hmem,
      fun k hk => dictGet_extendGeneral_other _ _ _ hk⟩
  · have hmem : keyMem generalKey ((splitLines text).foldl skillsStep skillsSeed) = true :=
      keyMem_foldl _ _ (by decide)
    cases hg : dictGet ((splitLines text).foldl skillsStep skillsSeed) generalKey with
    | none =>
      have := (keyMem_iff_dictGet generalKey _).mp hmem
      rw [hg] at this
      simp at this
    | some l =>
      cases l with
      | nil =>
        have hp : parse_technical_skills text =
            dictDelete ((splitLines text).foldl skillsStep skillsSeed) generalKey := by
          rw [parse_technical_skills, hg]
        rw [hp, keyMem_dictDelete]
        simp
      | cons x xs =>
        have hp : parse_technical_skills text =
            (splitLines text).foldl skillsStep skillsSeed := by
          rw [parse_technical_skills, hg]
        rw [hp, hmem]
        simp

/-- Witness for claim C7 on a single colon line with two items. -/
theorem claim_C7_witness :
    skillsStep [] "Languages: Python, SQL".data =
      dictInsert [] (pyStrip "Languages".data)
        (commaItems (pyStrip " Python, SQL".data)) :=
  (claim_C7_skills_spec []).1 [] "Languages: Python, SQL".data "Languages".data
    " Python, SQL".data (by decide) (by decide)

/-- A case-insensitive literal match decomposes the input and preserves the
literal up to case. -/
theorem matchLitCI_spec :
    ∀ (pat cs t r : PyStr), matchLitCI pat cs = some (t, r) →
      cs = t ++ r ∧ pyLower t = pyLower pat
  | [], cs, t, r => by
    intro h
    simp only [matchLitCI, Option.some_inj, Prod.mk.injEq] at h
    obtain ⟨ht, hr⟩ := h
    subst ht hr
    simp [pyLower]
  | p :: ps, [], t, r => by
    intro h
    exact Option.noConfusion h
  | p :: ps, c :: cs, t, r => by
    intro h
    simp only [matchLitCI] at h
    by_cases hc : c.toLower = p.toLower
    · rw [if_pos hc] at h
      cases hm : matchLitCI ps cs with
      | none => rw [hm] at h; exact Option.noConfusion h
      | some pr =>
        rw [hm] at h
        simp only [Option.map_some', Option.some_inj, Prod.mk.injEq] at h
        obtain ⟨ht, hr⟩ := h
        subst ht hr
        obtain ⟨h1, h2⟩ := matchLitCI_spec ps cs pr.1 pr.2 (by rw [hm])
        constructor
        · rw [h1]; rfl
        · simp only [pyLower, List.map_cons] at h2 ⊢
          rw [hc, h2]
    · rw [if_neg hc] at h
      exact Option.noConfusion h

/-- A successful first-literal match comes from one of the literals. -/
theorem firstLitCI_spec :
    ∀ (lits : List PyStr) (cs : PyStr) (pr : PyStr × PyStr),
      firstLitCI lits cs = some pr → ∃ lit ∈ lits, matchLitCI lit cs = some pr
  | [], cs, pr => by intro h; exact Option.noConfusion h
  | l :: ls, cs, pr => by
    intro h
    simp only [firstLitCI] at h
    cases h1 : matchLitCI l cs with
    | some q =>
      rw [h1] at h
      simp only [Option.some_orElse, Option.some_inj] at h
      exact ⟨l, by simp, by rw [h1, h]⟩
    | none =>
      rw [h1] at h
      simp only [Option.none_orElse] at h
      obtain ⟨lit, hmem, hm⟩ := firstLitCI_spec ls cs pr h
      exact ⟨lit, by simp [hmem], hm⟩

/-- The four-digit matcher decomposes the input into four digits and the
rest. -/
theorem take4Digits_spec (cs t r : PyStr) (h : take4Digits cs = some (t, r)) :
    cs = t ++ r ∧ t.length = 4 ∧ t.all pyDigit = true := by
  simp only [take4Digits] at h
  split at h
  · rename_i hc
    simp only [Option.some_inj, Prod.mk.injEq] at h
    obtain ⟨ht, hr⟩ := h
    subst ht hr
    exact ⟨(List.take_append_drop 4 cs).symm, hc.1, hc.2⟩
  · exact Option.noConfusion h

/-- The month-year matcher decomposes the input and its match has the
month-year shape. -/
theorem matchMonthYear_spec (cs t r : PyStr) (h : matchMonthYear cs = some (t, r)) :
    cs = t ++ r ∧ isMonthYearShape t := by
  simp only [matchMonthYear] at h
  cases hm : firstLitCI monthLits cs with
  | none => rw [hm] at h; exact Option.noConfusion h
  | some pr =>
    rw [hm] at h
    simp only [Option.some_bind] at h
    by_cases hsps : ((pr.2.dropWhile isAsciiLetter).takeWhile pySpaceChar) = []
    · rw [if_pos hsps] at h; exact Option.noConfusion h
    · rw [if_neg hsps] at h
      cases h4 : take4Digits ((pr.2.dropWhile isAsciiLetter).dropWhile pySpaceChar) with
      | none => rw [h4] at h; exact Option.noConfusion h
      | some q =>
        rw [h4] at h
        simp only [Option.map_some', Option.some_inj, Prod.mk.injEq] at h
        obtain ⟨ht, hr⟩ := h
        subst ht hr
        obtain ⟨lit, hmem, hlit⟩ := firstLitCI_spec monthLits cs pr hm
        obtain ⟨hcs, hlow⟩ := matchLitCI_spec lit cs pr.1 pr.2 (by rw [hlit])
        obtain ⟨hq, hq4, hqd⟩ := take4Digits_spec _ q.1 q.2 h4
        constructor
        · rw [hcs]
          have e1 : pr.2 = pr.2.takeWhile isAsciiLetter ++ pr.2.dropWhile isAsciiLetter :=
            (List.takeWhile_append_dropWhile _ _).symm
          have e2 : pr.2.dropWhile isAsciiLetter =
              (pr.2.dropWhile isAsciiLetter).takeWhile pySpaceChar ++
                ((pr.2.dropWhile isAsciiLetter).dropWhile pySpaceChar) :=
            (List.takeWhile_append_dropWhile _ _).symm
          conv_lhs => rw [e1, e2, hq]
          simp [List.append_assoc]
        · refine ⟨pr.1, pr.2.takeWhile isAsciiLetter,
            (pr.2.dropWhile isAsciiLetter).takeWhile pySpaceChar, q.1, by
              simp [List.append_assoc], ⟨lit, hmem, hlow⟩,
            List.all_takeWhile, hsps, List.all_takeWhile, hq4, hqd⟩

/-- The start group decomposes the input and has one of the two start
shapes. -/
theorem matchStartGroup_spec (cs t r : PyStr)
    (h : matchStartGroup cs = some (t, r)) :
    cs = t ++ r ∧ (isMonthYearShape t ∨ isYear4 t) := by
  simp only [matchStartGroup] at h
  cases hm : matchMonthYear cs with
  | some q =>
    rw [hm] at h
    simp only [Option.some_orElse, Option.some_inj] at h
    obtain ⟨hcs, hsh⟩ := matchMonthYear_spec cs t r (by rw [hm, h])
    exact ⟨hcs, Or.inl hsh⟩
  | none =>
    rw [hm] at h
    simp only [Option.none_orElse] at h
    obtain ⟨hcs, h4, hd⟩ := take4Digits_spec cs t r h
    exact ⟨hcs, Or.inr ⟨h4, hd⟩⟩

/-- The end group decomposes the input and has one of the end shapes. -/
theorem matchEndGroup_spec (cur : Bool) (cs t r : PyStr)
    (h : matchEndGroup cur cs = some (t, r)) :
    cs = t ++ r ∧
      (isMonthYearShape t ∨ isYear4 t ∨ isPresentTok t ∨ isCurrentTok t) := by
  simp only [matchEndGroup] at h
  cases hm : matchMonthYear cs with
  | some q =>
    rw [hm] at h
    simp only [Option.some_orElse, Option.some_inj] at h
    obtain ⟨hcs, hsh⟩ := matchMonthYear_spec cs t r (by rw [hm, h])
    exact ⟨hcs, Or.inl hsh⟩
  | none =>
    rw [hm] at h
    simp only [Option.none_orElse] at h
    cases h4 : take4Digits cs with
    | some q =>
      rw [h4] at h
      simp only [Option.some_orElse, Option.some_inj] at h
      obtain ⟨hcs, hl, hd⟩ := take4Digits_spec cs t r (by rw [h4, h])
      exact ⟨hcs, Or.inr (Or.inl ⟨hl, hd⟩)⟩
    | none =>
      rw [h4] at h
      simp only [Option.none_orElse] at h
      cases hp : matchLitCI "Present".data cs with
      | some q =>
        rw [hp] at h
        simp only [Option.some_orElse, Option.some_inj] at h
        obtain ⟨hcs, hlow⟩ := matchLitCI_spec "Present".data cs t r (by rw [hp, h])
        refine ⟨hcs, Or.inr (Or.inr (Or.inl ?_))⟩
        rw [isPresentTok, hlow]
        decide
      | none =>
        rw [hp] at h
        simp only [Option.none_orElse] at h
        cases cur with
        | false => exact Option.noConfusion h
        | true =>
          rw [if_pos rfl] at h
          obtain ⟨hcs, hlow⟩ := matchLitCI_spec "Current".data cs t r h
          refine ⟨hcs, Or.inr (Or.inr (Or.inr ?_))⟩
          rw [isCurrentTok, hlow]
          decide

/-- A date-range match at a position decomposes the input into the match and
the rest, and its components have the shapes the spec names: a month-year or
bare-year start, spaces, one of the three dashes, spaces, and a month-year,
bare-year, Present or Current end. -/
theorem dateRangeAt_spec (cur : Bool) (cs : PyStr) (m : DRMatch)
    (h : dateRangeAt cur cs = some m) :
    cs = m.full ++ m.rest ∧ (isMonthYearShape m.g1 ∨ isYear4 m.g1) ∧
      (m.dash = '-' ∨ m.dash = '–' ∨ m.dash = '—') ∧
      m.sp1.all pySpaceChar = true ∧ m.sp2.all pySpaceChar = true ∧
      (isMonthYearShape m.g2 ∨ isYear4 m.g2 ∨ isPresentTok m.g2 ∨
        isCurrentTok m.g2) := by
  simp only [dateRangeAt] at h
  cases hs : matchStartGroup cs with
  | none => rw [hs] at h; exact Option.noConfusion h
  | some pr =>
    rw [hs] at h
    simp only [Option.some_bind] at h
    cases hd : pr.2.dropWhile pySpaceChar with
    | nil => rw [hd] at h; exact Option.noConfusion h
    | cons d r3 =>
      rw [hd] at h
      dsimp only at h
      by_cases hdash : d = '-' ∨ d = '–' ∨ d = '—'
      · rw [if_pos hdash] at h
        cases he : matchEndGroup cur (r3.dropWhile pySpaceChar) with
        | none => rw [he] at h; exact Option.noConfusion h
        | some pr2 =>
          rw [he] at h
          simp only [Option.map_some', Option.some_inj] at h
          obtain ⟨hcs1, hsh1⟩ := matchStartGroup_spec cs pr.1 pr.2 hs
          obtain ⟨hcs2, hsh2⟩ := matchEndGroup_spec cur (r3.dropWhile pySpaceChar)
            pr2.1 pr2.2 (by rw [he])
          subst h
          refine ⟨?_, hsh1, hdash, List.all_takeWhile, List.all_takeWhile, hsh2⟩
          rw [DRMatch.full]
          have e1 : pr.2 = pr.2.takeWhile pySpaceChar ++ pr.2.dropWhile pySpaceChar :=
            (List.takeWhile_append_dropWhile _ _).symm
          have e2 : r3 = r3.takeWhile pySpaceChar ++ r3.dropWhile pySpaceChar :=
            (List.takeWhile_append_dropWhile _ _).symm
          rw [hcs1]
          conv_lhs => rw [e1, hd]
          simp only [List.append_assoc, List.cons_append, List.nil_append]
          congr 2
          conv_lhs => rw [e2, hcs2]
      · rw [if_neg hdash] at h
        exact Option.noConfusion h

/-- A date-range search hit has the component shapes of a match at some
position: the input splits into a preceding part, the match, and the rest. -/
theorem findDR_spec (cur : Bool) :
    ∀ (cs : PyStr) (m : DRMatch), findDR cur cs = some m →
      (isMonthYearShape m.g1 ∨ isYear4 m.g1) ∧
        (m.dash = '-' ∨ m.dash = '–' ∨ m.dash = '—') ∧
        m.sp1.all pySpaceChar = true ∧ m.sp2.all pySpaceChar = true ∧
        (isMonthYearShape m.g2 ∨ isYear4 m.g2 ∨ isPresentTok m.g2 ∨
          isCurrentTok m.g2) ∧
        ∃ pre, cs = pre ++ m.full ++ m.rest
  | [], m => by
    intro h
    simp only [findDR] at h
    obtain ⟨hcs, h1, h2, h3, h4, h5⟩ := dateRangeAt_spec cur [] m h
    exact ⟨h1, h2, h3, h4, h5, [], by simpa using hcs⟩
  | c :: t, m => by
    intro h
    simp only [findDR] at h
    cases h0 : dateRangeAt cur (c :: t) with
    | some m2 =>
      rw [h0] at h
      dsimp only at h
      rw [Option.some_inj] at h
      subst h
      obtain ⟨hcs, h1, h2, h3, h4, h5⟩ := dateRangeAt_spec cur (c :: t) m2 h0
      exact ⟨h1, h2, h3, h4, h5, [], by simpa using hcs⟩
    | none =>
      rw [h0] at h
      dsimp only at h
      obtain ⟨h1, h2, h3, h4, h5, pre, hpre⟩ := findDR_spec cur t m h
      exact ⟨h1, h2, h3, h4, h5, c :: pre, by rw [List.cons_append,
        List.cons_append, hpre]⟩

/-- Claim C6: the work-experience date-range pattern matches Jan 2020 endash
Present and 2019-2021, does not match the bare 2020, and in general every
match is a month-year or bare-year start joined by one of the three dashes
(with optional surrounding whitespace) to a month-year, bare-year, Present or
Current end. -/
theorem claim_C6_date_pattern :
    (findDR true "Jan 2020 – Present".data).isSome = true ∧
    (findDR true "2019-2021".data).isSome = true ∧
    findDR true "2020".data = none ∧
    ∀ (cs : PyStr) (m : DRMatch), findDR true cs = some m →
      (isMonthYearShape m.g1 ∨ isYear4 m.g1) ∧
        (m.dash = '-' ∨ m.dash = '–' ∨ m.dash = '—') ∧
        m.sp1.all pySpaceChar = true ∧ m.sp2.all pySpaceChar = true ∧
        (isMonthYearShape m.g2 ∨ isYear4 m.g2 ∨ isPresentTok m.g2 ∨
          isCurrentTok m.g2) ∧
        ∃ pre, cs = pre ++ m.full ++ m.rest :=
  ⟨by decide, by decide, by decide, findDR_spec true⟩

/-- Witness for the general part of claim C6 at a concrete search hit. -/
theorem claim_C6_witness :
    (isMonthYearShape drWitnessMatch.g1 ∨ isYear4 drWitnessMatch.g1) ∧
      (drWitnessMatch.dash = '-' ∨ drWitnessMatch.dash = '–' ∨
        drWitnessMatch.dash = '—') ∧
      drWitnessMatch.sp1.all pySpaceChar = true ∧
      drWitnessMatch.sp2.all pySpaceChar = true ∧
      (isMonthYearShape drWitnessMatch.g2 ∨ isYear4 drWitnessMatch.g2 ∨
        isPresentTok drWitnessMatch.g2 ∨ isCurrentTok drWitnessMatch.g2) ∧
      ∃ pre, "Jan 2020 - 2021".data = pre ++ drWitnessMatch.full ++
        drWitnessMatch.rest :=
  claim_C6_date_pattern.2.2.2 "Jan 2020 - 2021".data drWitnessMatch (by decide)

/-- An absent key makes a dict assignment an append. -/
theorem dictInsert_fresh {κ ν : Type} [DecidableEq κ] (m : List (κ × ν)) (k : κ)
    (v : ν) (h : keyMem k m = false) : dictInsert m k v = m ++ [(k, v)] := by
  simp [dictInsert, h]

/-- Absent keys in terms of the key sequence. -/
theorem keyMem_false_of_not_mem {κ ν : Type} [DecidableEq κ] (k : κ)
    (m : List (κ × ν)) (h : k ∉ m.map Prod.fst) : keyMem k m = false := by
  rw [keyMem_eq]
  rw [List.any_eq_false]
  intro x hx
  simp only [decide_eq_true_eq]
  intro he
  exact h (he ▸ hx)

/-- Body lines of an appended mapping. -/
theorem sectionBodyLines_append (a b : List (String × PyStr)) :
    sectionBodyLines (a ++ b) = sectionBodyLines a ++ sectionBodyLines b := by
  simp [sectionBodyLines]

/-- Splitting the newline-join of newline-free nonempty lines recovers the
lines. -/
theorem splitLines_joinNl (content : List PyStr) (h0 : content ≠ [])
    (hnl : ∀ l ∈ content, ('\n' : Char) ∉ l) :
    splitLines (joinNl content) = content := by
  unfold splitLines joinNl
  exact List.splitOn_intercalate _ '\n' hnl h0

/-- Flushing adds at most the current section identifier to the keys. -/
theorem keys_flushInto (cur : Option String) (content : List PyStr)
    (secs : List (String × PyStr)) :
    List.Sublist ((flushInto cur content secs).map Prod.fst)
      (secs.map Prod.fst ++ cur.toList) := by
  cases cur with
  | none => simp [flushInto]
  | some c =>
    by_cases hc : content.isEmpty
    · simp only [flushInto, hc, if_pos]
      exact List.sublist_append_left _ _
    · simp only [flushInto, hc, if_neg, Bool.false_eq_true, not_false_iff]
      unfold dictInsert
      split
      · rw [map_fst_overwrite]
        exact List.sublist_append_left _ _
      · simp only [List.map_append, Option.toList_some]
        exact List.Sublist.refl _

/-- Flushing grows the concatenated body lines by at most the accumulated
content, provided the flushed identifier is fresh. -/
theorem sectionBodyLines_flushInto (cur : Option String) (content : List PyStr)
    (secs : List (String × PyStr))
    (hnl : ∀ x ∈ content, ('\n' : Char) ∉ x)
    (hfresh : ∀ c, cur = some c → content ≠ [] → keyMem c secs = false) :
    List.Sublist (sectionBodyLines (flushInto cur content secs))
      (sectionBodyLines secs ++ content) := by
  cases cur with
  | none =>
    simp only [flushInto]
    exact List.sublist_append_left _ _
  | some c =>
    by_cases hc : content.isEmpty
    · simp only [flushInto, hc, if_pos]
      exact List.sublist_append_left _ _
    · have hne : content ≠ [] := by
        intro h
        rw [h] at hc
        simp at hc
      simp only [flushInto, hc, Bool.false_eq_true, if_neg, not_false_iff]
      rw [dictInsert_fresh _ _ _ (hfresh c rfl hne), sectionBodyLines_append]
      have : sectionBodyLines [(c, joinNl content)] = content := by
        simp [sectionBodyLines, splitLines_joinNl content hne hnl]
      rw [this]

/-- The walk of the segmenter only keeps lines, in order: provided the
heading identifiers still to be seen are disjoint from the keys already
stored (and from the open one), the body lines of the final mapping form a
subsequence of the stored body lines, the accumulated content, and the
remaining input lines. -/
theorem segGo_sublist :
    ∀ (ls : List PyStr) (cur : Option String) (content : List PyStr)
      (secs : List (String × PyStr)),
      ((secs.map Prod.fst ++ cur.toList) ++
          ls.filterMap (fun l => headerName (pyStrip l))).Nodup →
      (∀ c ∈ content, ('\n' : Char) ∉ c) →
      (∀ l ∈ ls, ('\n' : Char) ∉ l) →
      List.Sublist (sectionBodyLines (segGo ls cur content secs))
        ((sectionBodyLines secs ++ content) ++ ls)
  | [], cur, content, secs => by
    intro hN hc hl
    rw [List.append_nil]
    simp only [segGo]
    refine List.Sublist.trans (sectionBodyLines_flushInto cur content secs hc ?_)
      (List.Sublist.refl _)
    intro c hcur _
    subst hcur
    rw [List.filterMap_nil, List.append_nil] at hN
    apply keyMem_false_of_not_mem
    have hdisj := List.disjoint_of_nodup_append hN
    intro hmem
    exact hdisj hmem (by simp)
  | l :: rest, cur, content, secs => by
    intro hN hc hl
    cases hh : headerName (pyStrip l) with
    | some name =>
      simp only [segGo, hh]
      have hFH : (l :: rest).filterMap (fun x => headerName (pyStrip x)) =
          name :: rest.filterMap (fun x => headerName (pyStrip x)) := by
        simp [hh]
      rw [hFH] at hN
      have hfresh : ∀ c, cur = some c → content ≠ [] → keyMem c secs = false := by
        intro c hcur _
        subst hcur
        apply keyMem_false_of_not_mem
        intro hmem
        have hdisj := List.disjoint_of_nodup_append
          (List.Nodup.of_append_left hN)
        exact hdisj hmem (by simp)
      have hN' : (((flushInto cur content secs).map Prod.fst ++
          (Option.some name).toList) ++
            rest.filterMap (fun x => headerName (pyStrip x))).Nodup := by
        refine List.Nodup.sublist ?_ hN
        have e : ((flushInto cur content secs).map Prod.fst ++
            (Option.some name).toList) ++
              rest.filterMap (fun x => headerName (pyStrip x)) =
            (flushInto cur content secs).map Prod.fst ++
              (name :: rest.filterMap (fun x => headerName (pyStrip x))) := by
          simp
        rw [e]
        exact List.Sublist.append (keys_flushInto cur content secs)
          (List.Sublist.refl _)
      have ih := segGo_sublist rest (some name) [] (flushInto cur content secs)
        hN' (by simp) (fun x hx => hl x (List.mem_cons_of_mem l hx))
      rw [List.append_nil] at ih
      refine List.Sublist.trans ih ?_
      exact List.Sublist.append
        (sectionBodyLines_flushInto cur content secs hc hfresh)
        (List.sublist_cons_self l rest)
    | none =>
      have hFH : (l :: rest).filterMap (fun x => headerName (pyStrip x)) =
          rest.filterMap (fun x => headerName (pyStrip x)) := by
        simp [hh]
      rw [hFH] at hN
      by_cases hcond : cur.isSome ∧ pyStrip l ≠ []
      · simp only [segGo, hh, if_pos hcond]
        have ih := segGo_sublist rest cur (content ++ [l]) secs hN
          (by
            intro x hx
            rcases List.mem_append.mp hx with hx1 | hx2
            · exact hc x hx1
            · rw [List.mem_singleton.mp hx2]
              exact hl l (List.mem_cons_self l rest))
          (fun x hx => hl x (List.mem_cons_of_mem l hx))
        have e : sectionBodyLines secs ++ (content ++ [l]) ++ rest =
            sectionBodyLines secs ++ content ++ l :: rest := by
          simp
        exact e ▸ ih
      · simp only [segGo, hh, if_neg hcond]
        have ih := segGo_sublist rest cur content secs hN hc
          (fun x hx => hl x (List.mem_cons_of_mem l hx))
        exact List.Sublist.trans ih
          (List.Sublist.append_left (List.sublist_cons_self l rest) _)

/-- Elements of a split never contain a separator. -/
theorem not_sat_of_mem_splitOnP {α : Type} (p : α → Bool) :
    ∀ (xs l : List α), l ∈ List.splitOnP p xs → ∀ a ∈ l, p a = false
  | [], l, hl => by
    simp only [List.splitOnP_nil, List.mem_singleton] at hl
    subst hl
    intro a ha
    cases ha
  | x :: xs, l, hl => by
    rw [List.splitOnP_cons] at hl
    by_cases hx : p x
    · rw [if_pos hx] at hl
      rcases List.mem_cons.mp hl with h1 | h2
      · subst h1
        intro a ha
        cases ha
      · exact not_sat_of_mem_splitOnP p xs l h2
    · rw [if_neg hx] at hl
      cases hsp : List.splitOnP p xs with
      | nil => exact absurd hsp (List.splitOnP_ne_nil p xs)
      | cons hd tl =>
        rw [hsp] at hl
        simp only [List.modifyHead] at hl
        rcases List.mem_cons.mp hl with h1 | h2
        · subst h1
          intro a ha
          rcases List.mem_cons.mp ha with ha1 | ha2
          · subst ha1
            simpa using hx
          · exact not_sat_of_mem_splitOnP p xs hd
              (by rw [hsp]; exact List.mem_cons_self _ _) a ha2
        · exact not_sat_of_mem_splitOnP p xs l
            (by rw [hsp]; exact List.mem_cons_of_mem hd h2)

/-- No produced line contains a newline. -/
theorem not_newline_mem_splitLines (text : PyStr) :
    ∀ l ∈ splitLines text, ('\n' : Char) ∉ l := by
  intro l hl hmem
  have := not_sat_of_mem_splitOnP (fun c => c == '\n') text l hl '\n' hmem
  simp at this

/-- Counterexample to claim C4 as stated: with a repeated Summary heading the
later body overwrites the stored one at the key's first position, so the
concatenation of the bodies in mapping order is not a subsequence of the
original lines. -/
theorem claim_C4_counterexample :
    ¬ List.Sublist (sectionBodyLines (split_into_sections segDemoText))
      (splitLines segDemoText) := by
  decide

/-- Claim C4 as amended: for every text in which no heading identifier is
matched twice, concatenating the section bodies in mapping order yields a
subsequence of the original lines — no line is fabricated and kept lines
stay in their original relative order. -/
theorem claim_C4_amended (text : PyStr) (h : (headersOf text).Nodup) :
    List.Sublist (sectionBodyLines (split_into_sections text))
      (splitLines text) := by
  have := segGo_sublist (splitLines text) none [] []
    (by simpa [headersOf] using h) (by simp)
    (not_newline_mem_splitLines text)
  simpa [split_into_sections, sectionBodyLines] using this

/-- Witness for the amended claim C4 on a text without repeated headings. -/
theorem claim_C4_witness :
    List.Sublist (sectionBodyLines (split_into_sections segWitnessText))
      (splitLines segWitnessText) :=
  claim_C4_amended segWitnessText (by decide)

end CvReader
